import Mathlib

/-!
Shallow embedding of the Shadow chat-orchestration service (`ChatService`).

The source is a TypeScript class driving one conversational task: it allocates
message sequence numbers against a message store, folds a stream of completion
events into an ordered list of assistant message parts together with persistence
effects, manages a one-slot queued-action map with interruption, and cleans up
per-task session state.

Modelling conventions:
- database rows become `MsgRow` values in a `List`;
- the streaming loop of `_processUserMessageInternal` becomes a fold
  (`runLoop` / `finalizeStream` / `runStream`) over a list of `SChunk` events,
  emitting an explicit `Effect` trace in the order the source performs the
  corresponding calls (row creation, batched-update scheduling, immediate
  writes, status updates, queued-action dispatch);
- the allocated sequence value and database row id of the streaming assistant
  message are abstracted to `some 1` — the reducer only branches on their
  nullness, never on their value;
- socket emissions, MCP-manager teardown, activity timestamps and the git
  commit / PR / checkpoint pipeline are elided or appear as opaque effects
  (`Effect.postCompletion`), since no claim depends on their content;
- JavaScript truthiness guards on strings (`chunk.content`, `chunk.reasoning`,
  `chunk.reasoningSignature`, `chunk.redactedReasoningData`) become `≠ ""`
  tests; `a || b` on strings becomes `jsOrStr`.
-/

/-- Token usage counters carried by a `usage` chunk. -/
structure UsageData where
  promptTokens : Nat
  completionTokens : Nat
  totalTokens : Nat
deriving DecidableEq, Repr

/-- Assistant message parts, mirroring `AssistantMessagePart` from the source:
text, reasoning (with optional signature), redacted reasoning, tool call,
tool result, and error parts. -/
inductive MsgPart : Type
  | text (t : String)
  | reasoning (text : String) (signature : Option String)
  | redacted (data : String)
  | toolCall (callId : String) (name : String) (args : String)
  | toolResult (callId : String) (name : String) (result : String)
  | errorPart (error : String) (finishReason : Option String)
deriving DecidableEq, Repr

/-- Completion-stream events, mirroring the `chunk.type` discrimination in the
streaming loop of `_processUserMessageInternal`. -/
inductive SChunk : Type
  | content (s : String)
  | reasoning (s : String)
  | reasoningSignature (sig : String)
  | redacted (data : String)
  | toolCall (cid : String) (name : String) (args : String)
  | toolResult (cid : String) (result : String)
  | errorChunk (msg : String) (finishReason : Option String)
  | usage (u : UsageData)
deriving DecidableEq, Repr

/-- Task status values used by the orchestrator (`updateTaskStatus` calls). -/
inductive TaskStatus : Type
  | running
  | completed
  | stopped
  | failed
deriving DecidableEq, Repr

/-- Queued action: discriminated union with a follow-up message case and a
stacked-PR case, as in the source's `QueuedAction` type (the
`TaskModelContext` and socket are elided). -/
inductive QueuedAction : Type
  | message (msg : String) (workspacePath : Option String)
  | stackedPR (msg : String) (parentTaskId : String) (model : String) (userId : String)
deriving DecidableEq, Repr

/-- Observable persistence / session effects emitted while a turn runs, in the
order the source performs the corresponding calls. -/
inductive Effect : Type
  | createMessage (content : String) (parts : List MsgPart)
  | scheduleBatch (parts : List MsgPart)
  | clearBatch
  | flushBatch
  | immediateWrite (content : String) (parts : List MsgPart) (withUsage : Bool)
  | setTaskStatus (st : TaskStatus)
  | scheduleCleanup
  | endStreamEff
  | abortSignal
  | postCompletion
  | clearQueuedEff
  | dispatchQueued (a : QueuedAction)
deriving DecidableEq, Repr

/-- JavaScript `a || b` for an optional string: a missing or empty (falsy)
left operand yields the right operand. -/
def jsOrStr (a : Option String) (b : String) : String :=
  match a with
  | some s => if s = "" then b else s
  | none => b

/-- JavaScript `String.prototype.includes` (substring test). -/
def jsIncludes (s pat : String) : Bool :=
  decide ((s.splitOn pat).length > 1)

/-- The source expression `assistantParts.filter(text).map(text).join("")` from the final-write and
error-write paths. -/
def textConcat (parts : List MsgPart) : String :=
  String.join (parts.filterMap (fun p =>
    match p with
    | MsgPart.text t => some t
    | _ => none))

/-- User-facing copy substituted for rate-limit errors. -/
def rateLimitMsg : String :=
  "The model is currently experiencing high demand. Please try again in a few moments or switch to a different model."

/-- User-facing copy substituted for retry-exhaustion errors. -/
def retryFailMsg : String :=
  "The model is temporarily unavailable. Please try again or switch to a different model."

/-- The `activeReasoningParts.get(counter)` operation: JS `Map` lookup. -/
def getR (m : List (Nat × String × Option String)) (k : Nat) :
    Option (String × Option String) :=
  (m.find? (fun e => e.1 == k)).map (fun e => e.2)

/-- The `activeReasoningParts.set(counter, v)` operation: JS `Map` set (replace in place if
the key exists, otherwise append, preserving insertion order). -/
def setR (m : List (Nat × String × Option String)) (k : Nat)
    (v : String × Option String) : List (Nat × String × Option String) :=
  match m with
  | [] => [(k, v)]
  | e :: rest => if e.1 == k then (k, v) :: rest else e :: setR rest k v

/-- The `activeReasoningParts.delete(counter)` operation: JS `Map` delete. -/
def delR (m : List (Nat × String × Option String)) (k : Nat) :
    List (Nat × String × Option String) :=
  m.filter (fun e => e.1 != k)

/-- The local state of one streaming turn: the mutable locals of
`_processUserMessageInternal` plus the one-slot queued action for the task
(the only piece of session state the loop reads and writes). -/
structure StreamState where
  assistantSequence : Option Nat
  assistantMessageId : Option Nat
  assistantParts : List MsgPart
  usageMetadata : Option UsageData
  finishReason : Option String
  hasError : Bool
  activeReasoning : List (Nat × String × Option String)
  reasoningCounter : Nat
  queuedAction : Option QueuedAction
deriving DecidableEq, Repr

/-- Initial turn state (locals initialised before the loop; `q0` is the queued
action already registered for the task, if any). -/
def initState (q0 : Option QueuedAction) : StreamState :=
  { assistantSequence := none
    assistantMessageId := none
    assistantParts := []
    usageMetadata := none
    finishReason := none
    hasError := false
    activeReasoning := []
    reasoningCounter := 0
    queuedAction := q0 }

/-- The `content` chunk handler: push a text part; create the assistant row on the
first content/reasoning event, otherwise schedule a batched update. -/
def stepContent (s : StreamState) (str : String) : StreamState × List Effect :=
  if str = "" then (s, [])
  else
    let parts' := s.assistantParts ++ [MsgPart.text str]
    match s.assistantSequence, s.assistantMessageId with
    | none, _ =>
      ({ s with assistantParts := parts'
                assistantSequence := some 1
                assistantMessageId := some 1 },
       [Effect.createMessage str parts'])
    | some _, some _ =>
      ({ s with assistantParts := parts' }, [Effect.scheduleBatch parts'])
    | some _, none =>
      ({ s with assistantParts := parts' }, [])

/-- The `reasoning` chunk handler: concatenate into the pending reasoning block for
the current counter; create the assistant row if not yet created (the row's
metadata snapshot is the parts list, which does not include the pending
block). -/
def stepReasoning (s : StreamState) (str : String) : StreamState × List Effect :=
  if str = "" then (s, [])
  else
    let cur := (getR s.activeReasoning s.reasoningCounter).getD ("", none)
    let active' := setR s.activeReasoning s.reasoningCounter (cur.1 ++ str, cur.2)
    match s.assistantSequence with
    | none =>
      ({ s with activeReasoning := active'
                assistantSequence := some 1
                assistantMessageId := some 1 },
       [Effect.createMessage str s.assistantParts])
    | some _ =>
      ({ s with activeReasoning := active' }, [])

/-- The `reasoning-signature` chunk handler: if a pending block exists at the
current counter, attach the signature, move the block into the parts list,
advance the counter, and schedule a batched update; otherwise a no-op. -/
def stepSignature (s : StreamState) (sig : String) : StreamState × List Effect :=
  if sig = "" then (s, [])
  else
    match getR s.activeReasoning s.reasoningCounter with
    | none => (s, [])
    | some cur =>
      let parts' := s.assistantParts ++ [MsgPart.reasoning cur.1 (some sig)]
      let s' := { s with assistantParts := parts'
                         activeReasoning := delR s.activeReasoning s.reasoningCounter
                         reasoningCounter := s.reasoningCounter + 1 }
      match s.assistantMessageId with
      | some _ => (s', [Effect.scheduleBatch parts'])
      | none => (s', [])

/-- The `redacted-reasoning` chunk handler: append an opaque part directly. -/
def stepRedacted (s : StreamState) (data : String) : StreamState × List Effect :=
  if data = "" then (s, [])
  else
    let parts' := s.assistantParts ++ [MsgPart.redacted data]
    match s.assistantSequence, s.assistantMessageId with
    | none, _ =>
      ({ s with assistantParts := parts'
                assistantSequence := some 1
                assistantMessageId := some 1 },
       [Effect.createMessage "[Redacted reasoning]" parts'])
    | some _, some _ =>
      ({ s with assistantParts := parts' }, [Effect.scheduleBatch parts'])
    | some _, none =>
      ({ s with assistantParts := parts' }, [])

/-- The `tool-call` chunk handler: append a tool-invocation-request part and
schedule a batched update (this branch never creates the message row). -/
def stepToolCall (s : StreamState) (cid name args : String) :
    StreamState × List Effect :=
  let parts' := s.assistantParts ++ [MsgPart.toolCall cid name args]
  match s.assistantMessageId with
  | some _ => ({ s with assistantParts := parts' }, [Effect.scheduleBatch parts'])
  | none => ({ s with assistantParts := parts' }, [])

/-- Predicate matching the source's scan for the tool-call part sharing the
result's identifier. -/
def isCallFor (cid : String) : MsgPart → Bool
  | MsgPart.toolCall c _ _ => c == cid
  | _ => false

/-- On a `tool-result` chunk the source scans the accumulated parts with
`find` for the first `tool-call` sharing the identifier; its tool name is
taken, or the empty string when no match exists. -/
def findCallName (parts : List MsgPart) (cid : String) : String :=
  match parts.find? (isCallFor cid) with
  | some (MsgPart.toolCall _ n _) => n
  | _ => ""

/-- The `tool-result` chunk handler: resolve the tool name from the matching
tool-call part, append a tool-result part, schedule a batched update. -/
def stepToolResult (s : StreamState) (cid res : String) :
    StreamState × List Effect :=
  let parts' := s.assistantParts ++
    [MsgPart.toolResult cid (findCallName s.assistantParts cid) res]
  match s.assistantMessageId with
  | some _ => ({ s with assistantParts := parts' }, [Effect.scheduleBatch parts'])
  | none => ({ s with assistantParts := parts' }, [])

/-- The `error` chunk handler: rewrite rate-limit / retry-exhaustion copy, append
an error part, clear the batch slot and perform an immediate terminal write
when a row exists, set the task status to failed, end the stream, and discard
any queued action. The caller breaks out of the loop afterwards. -/
def stepError (s : StreamState) (msg : String) (fr : Option String) :
    StreamState × List Effect :=
  let fr' := jsOrStr fr "error"
  let base := if msg = "" then "Unknown error occurred" else msg
  let friendly :=
    if jsIncludes base "Too Many Requests" || jsIncludes base "rate limit" then
      rateLimitMsg
    else if jsIncludes base "Failed after 3 attempts" then retryFailMsg
    else base
  let parts' := s.assistantParts ++ [MsgPart.errorPart friendly fr]
  let writeEffs :=
    match s.assistantMessageId with
    | some _ => [Effect.clearBatch,
                 Effect.immediateWrite (textConcat parts') parts' false]
    | none => []
  ({ s with assistantParts := parts'
            finishReason := some fr'
            hasError := true
            queuedAction := none },
   writeEffs ++ [Effect.setTaskStatus TaskStatus.failed, Effect.endStreamEff,
                 Effect.clearQueuedEff])

/-- The `usage` chunk handler: record the running usage snapshot; no part. -/
def stepUsage (s : StreamState) (u : UsageData) : StreamState × List Effect :=
  ({ s with usageMetadata := some u }, [])

/-- One iteration of the streaming loop body, dispatching on `chunk.type`. -/
def processChunk (s : StreamState) : SChunk → StreamState × List Effect
  | SChunk.content str => stepContent s str
  | SChunk.reasoning str => stepReasoning s str
  | SChunk.reasoningSignature sig => stepSignature s sig
  | SChunk.redacted d => stepRedacted s d
  | SChunk.toolCall cid name args => stepToolCall s cid name args
  | SChunk.toolResult cid res => stepToolResult s cid res
  | SChunk.errorChunk m fr => stepError s m fr
  | SChunk.usage u => stepUsage s u

/-- The `for await` loop: check the stop flag at each iteration head, process
the chunk, and break out after an error chunk (the only `break` besides the
stop check). `stop` models the per-task `stopRequested` flag, constant for
the duration of a run. -/
def runLoop (stop : Bool) : StreamState → List SChunk → StreamState × List Effect
  | s, [] => (s, [])
  | s, c :: cs =>
    if stop then (s, [])
    else
      let sc := processChunk s c
      if sc.1.hasError then sc
      else
        let rest := runLoop stop sc.1 cs
        (rest.1, sc.2 ++ rest.2)

/-- End-of-loop finalisation: flush unsigned reasoning blocks into the parts
list, clear the batch slot and write the final row (with usage when observed,
otherwise just flush the pending batched update), then classify the turn and
emit the status / cleanup / post-completion effects. -/
def finalizeStream (stop : Bool) (s : StreamState) : StreamState × List Effect :=
  let parts' := s.assistantParts ++
    s.activeReasoning.map (fun e => MsgPart.reasoning e.2.1 e.2.2)
  let wasStopped := stop && !s.hasError
  let writeEffs :=
    match s.assistantMessageId with
    | none => []
    | some _ =>
      Effect.clearBatch ::
        (match s.usageMetadata with
         | some _ => [Effect.immediateWrite (textConcat parts') parts' true]
         | none => [Effect.flushBatch])
  let statusEffs :=
    if s.hasError then [Effect.scheduleCleanup]
    else if wasStopped then
      [Effect.setTaskStatus TaskStatus.stopped, Effect.scheduleCleanup]
    else
      [Effect.setTaskStatus TaskStatus.completed, Effect.scheduleCleanup,
       Effect.postCompletion]
  ({ s with assistantParts := parts', activeReasoning := [] },
   writeEffs ++ statusEffs ++ [Effect.endStreamEff])

/-- The call to `processQueuedActions` at the end of a turn, at the reducer level: take the
slot (empty after an error, since the error handler cleared it), emptying it
before dispatch. -/
def processQueuedAtEnd (s : StreamState) : StreamState × List Effect :=
  match s.queuedAction with
  | none => (s, [])
  | some a => ({ s with queuedAction := none }, [Effect.dispatchQueued a])

/-- Result of one full turn: final reducer state and the ordered effect
trace. -/
structure RunOutcome where
  state : StreamState
  effects : List Effect
deriving DecidableEq, Repr

/-- One full turn of the streaming reducer: loop, finalisation, and
queued-action processing, with the effect traces concatenated in order. -/
def runStream (stop : Bool) (q0 : Option QueuedAction) (es : List SChunk) :
    RunOutcome :=
  let r1 := runLoop stop (initState q0) es
  let r2 := finalizeStream stop r1.1
  let r3 := processQueuedAtEnd r2.1
  ⟨r3.1, r1.2 ++ r2.2 ++ r3.2⟩

/-- The parts snapshot carried by a persistence effect, if any: row creation,
scheduled batched updates, and immediate writes all persist a snapshot of the
parts list. -/
def snapshotOf : Effect → Option (List MsgPart)
  | Effect.createMessage _ ps => some ps
  | Effect.scheduleBatch ps => some ps
  | Effect.immediateWrite _ ps _ => some ps
  | _ => none

/-- All parts snapshots persisted during a trace. -/
def persistedSnapshots (effs : List Effect) : List (List MsgPart) :=
  effs.filterMap snapshotOf

/-- Number of immediate (non-batched) writes in a trace. -/
def immWriteCount (effs : List Effect) : Nat :=
  (effs.filterMap (fun e =>
    match e with
    | Effect.immediateWrite c ps wu => some (c, ps, wu)
    | _ => none)).length

/-- Queued actions actually dispatched during a trace. -/
def dispatchedActions (effs : List Effect) : List QueuedAction :=
  effs.filterMap (fun e =>
    match e with
    | Effect.dispatchQueued a => some a
    | _ => none)

/-- Content and parts of the last immediate write of a trace — the final
persisted image of the assistant message. -/
def lastWrite (effs : List Effect) : Option (String × List MsgPart) :=
  effs.reverse.findSome? (fun e =>
    match e with
    | Effect.immediateWrite c ps _ => some (c, ps)
    | _ => none)

/-!
Message store and sequence allocation (`getNextSequence`,
`createMessageWithAtomicSequence`, `editUserMessage`'s delete).

Transactions are serialisable: a concurrent execution is a serialisation of
its atomic transactions. `getNextSequence` wraps only the max-sequence read in
its transaction; `createMessageWithAtomicSequence` wraps the read and the
insert together.
-/

/-- A row of the `chatMessage` table, restricted to the columns the claims
mention. -/
structure MsgRow where
  id : String
  taskId : String
  sequence : Nat
  content : String
deriving DecidableEq, Repr

/-- Greatest sequence among a task's rows, `0` when the task has none — the
`findFirst` / `orderBy sequence desc` read, with `lastMessage?.sequence || 0`
for the empty case. -/
def maxSeq : List MsgRow → String → Nat
  | [], _ => 0
  | m :: rest, t =>
    if m.taskId = t then max m.sequence (maxSeq rest t) else maxSeq rest t

/-- The allocator `getNextSequence`: a transaction containing only the max-sequence read,
returning `max + 1`. No insert happens inside this transaction. -/
def getNextSequence (db : List MsgRow) (t : String) : Nat :=
  maxSeq db t + 1

/-- The fused `createMessageWithAtomicSequence`: one transaction performing the
max-sequence read and the insert with `max + 1` together. Returns the created
row and the new table state. -/
def createMessageWithAtomicSequence (db : List MsgRow) (t : String)
    (mid content : String) : MsgRow × List MsgRow :=
  let row : MsgRow := ⟨mid, t, maxSeq db t + 1, content⟩
  (row, db ++ [row])

/-- A serialised execution of `n` fused allocate-and-insert calls for task
`t`, collecting the allocated sequence numbers in execution order. Since each
call is a single atomic transaction, every concurrent execution is one such
serialisation. -/
def runFusedAllocs : List MsgRow → String → Nat → List Nat
  | _, _, 0 => []
  | db, t, n + 1 =>
    let r := createMessageWithAtomicSequence db t "" ""
    r.1.sequence :: runFusedAllocs r.2 t n

/-- An admissible interleaving of two standalone `getNextSequence` allocations
for the same task: both read transactions execute before either caller's
separate insert transaction. Each `let` line is one atomic transaction; the
interleaving is legal precisely because `getNextSequence`'s transaction
contains no insert. Returns the two allocated numbers and the final table. -/
def interleavedStandaloneAllocs (db : List MsgRow) (t : String) :
    Nat × Nat × List MsgRow :=
  let a := getNextSequence db t
  let b := getNextSequence db t
  let db1 := db ++ [⟨"A", t, a, ""⟩]
  let db2 := db1 ++ [⟨"B", t, b, ""⟩]
  (a, b, db2)

/-- The in-place content/model update of `editUserMessage` (`update` by id). -/
def updateContent (db : List MsgRow) (mid newContent : String) : List MsgRow :=
  db.map (fun m => if m.id = mid then { m with content := newContent } else m)

/-- The `deleteMany` of `editUserMessage`: remove the task's rows with
sequence strictly greater than the edited row's. -/
def deleteAfterSequence (db : List MsgRow) (t : String) (s : Nat) :
    List MsgRow :=
  db.filter (fun m => !(m.taskId == t && decide (s < m.sequence)))

/-- The persistence core of `editUserMessage`: update the edited row in place,
re-read its sequence, fail if the row does not exist, then delete the task's
rows with strictly greater sequence. (Checkpoint restoration and the replay
turn are elided.) -/
def editUserMessage (db : List MsgRow) (t mid newContent : String) :
    Option (List MsgRow) :=
  let db1 := updateContent db mid newContent
  match db1.find? (fun m => m.id == mid) with
  | none => none
  | some em => some (deleteAfterSequence db1 t em.sequence)

/-!
Session-level state of the `ChatService` instance: the per-task registries
(`activeStreams`, `stopRequested`, `queuedActions`) and the per-task pending
batched-write slot of `databaseBatchService`, keyed by task identifier.
-/

/-- JS `Map` lookup on an association list. -/
def mapGet (m : List (String × QueuedAction)) (k : String) :
    Option QueuedAction :=
  (m.find? (fun p => p.1 == k)).map (fun p => p.2)

/-- JS `Map.set`: replace in place when the key exists, else append. -/
def mapSet (m : List (String × QueuedAction)) (k : String) (v : QueuedAction) :
    List (String × QueuedAction) :=
  match m with
  | [] => [(k, v)]
  | p :: rest => if p.1 == k then (k, v) :: rest else p :: mapSet rest k v

/-- JS `Map.delete`. -/
def mapDel (m : List (String × QueuedAction)) (k : String) :
    List (String × QueuedAction) :=
  m.filter (fun p => p.1 != k)

/-- JS `Set.add`. -/
def setAdd (l : List String) (k : String) : List String :=
  if k ∈ l then l else l ++ [k]

/-- JS `Set.delete` / removing a key from a keyed registry. -/
def setDel (l : List String) (k : String) : List String :=
  l.filter (fun x => x != k)

/-- The `ChatService` session registries plus the batch service's pending
slots. -/
structure ChatSvc where
  activeStreams : List String
  stopRequested : List String
  queuedActions : List (String × QueuedAction)
  batchPending : List String
deriving DecidableEq, Repr

/-- The `stopStream` method: mark stop requested, abort and deregister the active stream
when present, flush the pending batched update, and set the task status to
stopped. -/
def stopStream (svc : ChatSvc) (t : String) : ChatSvc × List Effect :=
  let svc1 := { svc with stopRequested := setAdd svc.stopRequested t }
  let step2 : ChatSvc × List Effect :=
    if t ∈ svc1.activeStreams then
      ({ svc1 with activeStreams := setDel svc1.activeStreams t },
       [Effect.abortSignal])
    else (svc1, [])
  let svc3 := { step2.1 with batchPending := setDel step2.1.batchPending t }
  (svc3, step2.2 ++ [Effect.flushBatch, Effect.setTaskStatus TaskStatus.stopped])

/-- Outcome of the queue/interrupt head of `_processUserMessageInternal`:
either the message was queued and the call returned without starting a turn,
or processing proceeds as a fresh turn. -/
inductive SubmitOutcome : Type
  | queuedOnly
  | proceed
deriving DecidableEq, Repr

/-- The queue/interrupt head of `_processUserMessageInternal` (before the
user message is saved): with `queue = true` and an active stream, overwrite
the one-slot queued action and return; with `queue = false` and an active
stream, stop the stream and discard any queued action, then proceed. -/
def submitMessageHead (svc : ChatSvc) (t msg : String)
    (workspacePath : Option String) (queue : Bool) :
    ChatSvc × SubmitOutcome × List Effect :=
  if queue then
    if t ∈ svc.activeStreams then
      let q' := mapSet svc.queuedActions t (QueuedAction.message msg workspacePath)
      ({ svc with queuedActions := q' }, SubmitOutcome.queuedOnly, [])
    else (svc, SubmitOutcome.proceed, [])
  else
    if t ∈ svc.activeStreams then
      let r := stopStream svc t
      ({ r.1 with queuedActions := mapDel r.1.queuedActions t },
       SubmitOutcome.proceed, r.2)
    else (svc, SubmitOutcome.proceed, [])

/-- The `cleanupTask` method: abort and drop the active stream when present, drop the
queued action and the pending batched write. (`stopRequested` is untouched by
this method in the source.) The whole body is wrapped in a catch-all, and
every operation here is total, so the call never throws. -/
def cleanupTask (svc : ChatSvc) (t : String) : ChatSvc × List Effect :=
  let effs := if t ∈ svc.activeStreams then [Effect.abortSignal] else []
  ({ activeStreams := setDel svc.activeStreams t
     stopRequested := svc.stopRequested
     queuedActions := mapDel svc.queuedActions t
     batchPending := setDel svc.batchPending t }, effs)

/-- Dispatching a dequeued action; the boolean says whether the dispatched
turn throws. Abstracted to its outcome — the dispatch itself is the full
turn (or stacked-task creation), outside this operation. -/
def dispatchQueuedAction (_a : QueuedAction) (fails : Bool) :
    Except String Unit :=
  if fails then Except.error "queued dispatch failed" else Except.ok ()

/-- The `processQueuedActions` method: read the slot; if empty, return. Otherwise delete
the slot first, then dispatch inside a try/catch that logs and swallows any
error. Returns the new state, the dispatched actions, and whether an
exception escaped to the caller. -/
def processQueuedActions (svc : ChatSvc) (t : String) (fails : Bool) :
    ChatSvc × List QueuedAction × Bool :=
  match mapGet svc.queuedActions t with
  | none => (svc, [], false)
  | some a =>
    let svc1 := { svc with queuedActions := mapDel svc.queuedActions t }
    match dispatchQueuedAction a fails with
    | Except.ok _ => (svc1, [a], false)
    | Except.error _ => (svc1, [a], false)

/-- Whether a chunk is an `error` chunk. -/
def SChunk.isErrorChunk : SChunk → Bool
  | SChunk.errorChunk _ _ => true
  | _ => false

/-- Whether a chunk is a `usage` chunk. -/
def SChunk.isUsageChunk : SChunk → Bool
  | SChunk.usage _ => true
  | _ => false

/-- Whether a chunk is a `reasoning-signature` chunk. -/
def SChunk.isSigChunk : SChunk → Bool
  | SChunk.reasoningSignature _ => true
  | _ => false

/-- Whether processing this chunk creates the assistant message row when none
exists yet: `content`, `reasoning` and `redacted-reasoning` chunks with
nonempty (truthy) payload do; all other chunks never do. -/
def SChunk.createsMsg : SChunk → Bool
  | SChunk.content s => s != ""
  | SChunk.reasoning s => s != ""
  | SChunk.redacted d => d != ""
  | _ => false

/-- Concatenation of the texts of the `reasoning` chunks of a stream, in
order. -/
def reasoningConcat : List SChunk → String
  | [] => ""
  | SChunk.reasoning t :: cs => t ++ reasoningConcat cs
  | _ :: cs => reasoningConcat cs

/-- Whether a part is a reasoning part. -/
def MsgPart.isReasoningPart : MsgPart → Bool
  | MsgPart.reasoning _ _ => true
  | _ => false

/-- Canonical shape of the active-reasoning map while no signature has
arrived: empty when nothing has accumulated, else a single unsigned block at
the current counter. -/
def mkActive (k : Nat) (r : String) : List (Nat × String × Option String) :=
  if r = "" then [] else [(k, r, none)]

/-- Initial-segment relation: `xs` followed by some tail equals `ys`. -/
def ListPref {α : Type} (xs ys : List α) : Prop :=
  ∃ tl, xs ++ tl = ys

/-!
Supporting lemmas.
-/

/-- A string with a nonempty left component of an append is nonempty. -/
theorem append_ne_empty_left (a b : String) (h : a ≠ "") : a ++ b ≠ "" := by
  intro hab
  apply h
  have hd := congrArg String.data hab
  rw [String.data_append] at hd
  have ha : a.data = [] := (List.append_eq_nil.mp hd).1
  cases a with
  | mk d => cases ha; rfl

/-- Effect of appending one row on a task's maximum sequence. -/
theorem maxSeq_append (db : List MsgRow) (r : MsgRow) (t : String) :
    maxSeq (db ++ [r]) t
      = if r.taskId = t then max (maxSeq db t) r.sequence else maxSeq db t := by
  induction db with
  | nil =>
    simp only [List.nil_append, maxSeq]
    split <;> omega
  | cons m rest ih =>
    simp only [List.cons_append, maxSeq, List.append_eq, ih]
    by_cases h1 : m.taskId = t <;> by_cases h2 : r.taskId = t <;>
      simp only [h1, h2, if_true, if_false, ite_true, ite_false] <;> omega

/-- A fused allocate-and-insert raises the task's maximum sequence by one. -/
theorem maxSeq_fused (db : List MsgRow) (t mid c : String) :
    maxSeq (createMessageWithAtomicSequence db t mid c).2 t = maxSeq db t + 1 := by
  simp [createMessageWithAtomicSequence, maxSeq_append]

/-- Every sequence allocated by a serialised run of fused allocations exceeds
the task's starting maximum, and the run is strictly increasing. -/
theorem runFusedAllocs_gt_pairwise (t : String) (n : Nat) :
    ∀ db : List MsgRow,
      (∀ x ∈ runFusedAllocs db t n, maxSeq db t < x) ∧
        List.Pairwise (· < ·) (runFusedAllocs db t n) := by
  induction n with
  | zero => intro db; simp [runFusedAllocs]
  | succ k ih =>
    intro db
    have hdb := maxSeq_fused db t "" ""
    obtain ⟨ih1, ih2⟩ := ih (createMessageWithAtomicSequence db t "" "").2
    rw [hdb] at ih1
    have hseq : (createMessageWithAtomicSequence db t "" "").1.sequence
        = maxSeq db t + 1 := rfl
    constructor
    · intro x hx
      simp only [runFusedAllocs, List.mem_cons] at hx
      rcases hx with h | h
      · rw [h, hseq]; omega
      · have := ih1 x h; omega
    · simp only [runFusedAllocs, List.pairwise_cons]
      refine ⟨fun x hx => ?_, ih2⟩
      have := ih1 x hx
      rw [hseq]
      omega

/-- C1 counterexample: the claim asserts that concurrent calls of the
standalone allocator `getNextSequence` also yield pairwise distinct sequence
numbers. In the admissible interleaving where both allocators' read
transactions run before either caller's insert (legal because
`getNextSequence`'s transaction contains only the read), both calls return
the same number `1` on an empty task, so the allocated numbers are not
pairwise distinct. -/
theorem c1_counterexample :
    (interleavedStandaloneAllocs [] "T").1
        = (interleavedStandaloneAllocs [] "T").2.1 ∧
      (interleavedStandaloneAllocs [] "T").1 = 1 := by
  exact ⟨rfl, rfl⟩

/-- C1 (amended): any serialisation of concurrent fused allocate-and-insert
calls (`createMessageWithAtomicSequence`) on the same task yields sequence
numbers that are strictly increasing in execution order and pairwise
distinct, because that operation's read of the current maximum and its insert
share one atomic transaction. The standalone `getNextSequence` wraps only the
read, so the guarantee does not extend to it. -/
theorem c1_fused_allocs_distinct_increasing (db : List MsgRow) (t : String)
    (n : Nat) :
    List.Chain' (· < ·) (runFusedAllocs db t n) ∧
      List.Pairwise (· ≠ ·) (runFusedAllocs db t n) := by
  have h := (runFusedAllocs_gt_pairwise t n db).2
  exact ⟨h.chain', h.imp Nat.ne_of_lt⟩

/-- C5: for the stream `[content "a", content "b", usage u]`, the final
persisted write carries content `"ab"` and the final parts list is exactly
the two text parts in order. -/
theorem c5_content_concatenation :
    lastWrite (runStream false none [SChunk.content "a", SChunk.content "b",
          SChunk.usage ⟨1, 2, 3⟩]).effects
        = some ("ab", [MsgPart.text "a", MsgPart.text "b"]) ∧
      (runStream false none [SChunk.content "a", SChunk.content "b",
          SChunk.usage ⟨1, 2, 3⟩]).state.assistantParts
        = [MsgPart.text "a", MsgPart.text "b"] := by
  exact ⟨rfl, rfl⟩

/-- C7: after a successful edit of the message with id `mid` (whose updated
row is `em`, at sequence `em.sequence`), a row survives in the table exactly
when it is a row of the updated table that is not a row of task `t` with
sequence strictly greater than `em.sequence`: every strictly-later row of
the task is deleted and nothing else is. -/
theorem c7_edit_deletes_exactly_greater (db : List MsgRow)
    (t mid c : String) (em : MsgRow) (db' : List MsgRow)
    (hfind : (updateContent db mid c).find? (fun m => m.id == mid) = some em)
    (hrun : editUserMessage db t mid c = some db') :
    ∀ m : MsgRow,
      m ∈ db' ↔
        m ∈ updateContent db mid c ∧ ¬(m.taskId = t ∧ em.sequence < m.sequence) := by
  intro m
  have hdb' : db' = deleteAfterSequence (updateContent db mid c) t em.sequence := by
    simp only [editUserMessage, hfind] at hrun
    exact (Option.some.injEq _ _ ▸ hrun).symm
  subst hdb'
  simp only [deleteAfterSequence, List.mem_filter, Bool.not_eq_true',
    Bool.and_eq_false_iff]
  constructor
  · rintro ⟨hm, hcond⟩
    refine ⟨hm, ?_⟩
    rintro ⟨hT, hS⟩
    rcases hcond with h | h
    · exact absurd hT (by simpa using h)
    · exact absurd hS (by simpa using h)
  · rintro ⟨hm, hcond⟩
    refine ⟨hm, ?_⟩
    by_cases hT : m.taskId = t
    · right
      simp only [decide_eq_false_iff_not]
      intro hS
      exact hcond ⟨hT, hS⟩
    · left
      simpa using hT

/-- Deleting a key from a string set twice equals deleting it once. -/
theorem setDel_idem (l : List String) (k : String) :
    setDel (setDel l k) k = setDel l k := by
  simp [setDel, List.filter_filter]

/-- A deleted key is absent from a string set. -/
theorem not_mem_setDel (l : List String) (k : String) : k ∉ setDel l k := by
  simp [setDel, List.mem_filter]

/-- A key added to a string set is a member. -/
theorem mem_setAdd_self (l : List String) (k : String) : k ∈ setAdd l k := by
  by_cases h : k ∈ l <;> simp [setAdd, h]

/-- Deleting a key from a queued-action map twice equals deleting it once. -/
theorem mapDel_idem (m : List (String × QueuedAction)) (k : String) :
    mapDel (mapDel m k) k = mapDel m k := by
  simp [mapDel, List.filter_filter]

/-- A deleted key has no entry in a queued-action map. -/
theorem mapGet_mapDel (m : List (String × QueuedAction)) (k : String) :
    mapGet (mapDel m k) k = none := by
  induction m with
  | nil => rfl
  | cons p rest ih =>
    by_cases h : p.1 = k
    · simpa [mapDel, mapGet, List.filter, h, bne] using ih
    · have hb : (p.1 != k) = true := by simp [bne, h]
      have hb2 : (p.1 == k) = false := by simp [h]
      simp only [mapDel, List.filter, hb] at ih ⊢
      simpa [mapGet, List.find?, hb2] using ih

/-- A freshly set key maps to the new value. -/
theorem mapGet_mapSet_self (m : List (String × QueuedAction)) (k : String)
    (v : QueuedAction) : mapGet (mapSet m k v) k = some v := by
  induction m with
  | nil => simp [mapSet, mapGet, List.find?]
  | cons p rest ih =>
    by_cases h : p.1 = k
    · simp [mapSet, mapGet, List.find?, h]
    · have hb2 : (p.1 == k) = false := by simp [h]
      simp only [mapSet, hb2, if_false]
      simpa [mapGet, List.find?, hb2] using ih

/-- C9: calling `cleanupTask` twice in succession for the same task is safe:
the second call leaves the session state (active-stream registry, queued
actions, pending batched writes) exactly as the first call left it and aborts
nothing. Both calls are total functions of the state, so no exception is
raised. -/
theorem c9_cleanup_idempotent (svc : ChatSvc) (t : String) :
    (cleanupTask (cleanupTask svc t).1 t).1 = (cleanupTask svc t).1 ∧
      (cleanupTask (cleanupTask svc t).1 t).2 = [] := by
  constructor
  · simp [cleanupTask, setDel_idem, mapDel_idem]
  · simp [cleanupTask, not_mem_setDel]

/-- C10: `processQueuedActions` never lets an exception escape to the caller
(the dispatch runs inside a catch-all), leaves the task's queue slot empty,
and dispatches exactly the action that was queued — at most one, dequeued
before dispatch, with no retry slot left behind even when the dispatch
fails. -/
theorem c10_queued_action_dequeued_once (svc : ChatSvc) (t : String)
    (fails : Bool) :
    (processQueuedActions svc t fails).2.2 = false ∧
      mapGet (processQueuedActions svc t fails).1.queuedActions t = none ∧
      (processQueuedActions svc t fails).2.1
        = (mapGet svc.queuedActions t).toList := by
  rcases h : mapGet svc.queuedActions t with _ | a
  · exact ⟨by simp [processQueuedActions, h],
      by simp [processQueuedActions, h],
      by simp [processQueuedActions, h]⟩
  · refine ⟨?_, ?_, ?_⟩ <;>
      rcases hf : fails <;>
        simp [processQueuedActions, h, dispatchQueuedAction, mapGet_mapDel]

/-- C4: while a stream is active for task `t`, submitting a new message not
marked for queueing (immediate) stops the prior stream — the task is removed
from the active registry, the stop flag is set, a Stopped status update is
emitted — and discards any queued action before processing proceeds as a
fresh turn; submitting a message marked for queueing leaves the active
stream and stop flags untouched, overwrites the one-slot queued action
(last-write-wins), and returns without starting a turn or emitting any
effect. -/
theorem c4_immediate_vs_queued (svc : ChatSvc) (t msg : String)
    (wp : Option String) (h : t ∈ svc.activeStreams) :
    ((submitMessageHead svc t msg wp false).2.1 = SubmitOutcome.proceed ∧
      t ∉ (submitMessageHead svc t msg wp false).1.activeStreams ∧
      t ∈ (submitMessageHead svc t msg wp false).1.stopRequested ∧
      mapGet (submitMessageHead svc t msg wp false).1.queuedActions t = none ∧
      Effect.setTaskStatus TaskStatus.stopped
        ∈ (submitMessageHead svc t msg wp false).2.2) ∧
    ((submitMessageHead svc t msg wp true).2.1 = SubmitOutcome.queuedOnly ∧
      (submitMessageHead svc t msg wp true).1.activeStreams
        = svc.activeStreams ∧
      (submitMessageHead svc t msg wp true).1.stopRequested
        = svc.stopRequested ∧
      mapGet (submitMessageHead svc t msg wp true).1.queuedActions t
        = some (QueuedAction.message msg wp) ∧
      (submitMessageHead svc t msg wp true).2.2 = []) := by
  constructor
  · refine ⟨?_, ?_, ?_, ?_, ?_⟩ <;>
      simp [submitMessageHead, stopStream, h, not_mem_setDel, mem_setAdd_self,
        mapGet_mapDel]
  · refine ⟨?_, ?_, ?_, ?_, ?_⟩ <;>
      simp [submitMessageHead, h, mapGet_mapSet_self]

/-- C8: processing a `tool-result` chunk appends exactly one tool-result part
and never raises an error. When no tool-call part in the accumulated parts
shares the identifier (state `s₁`), the appended part's tool name is the
empty string; when the scan finds a matching tool-call part with name `n`
(state `s₂`), the appended part carries `n`. -/
theorem c8_tool_result_name_resolution (s₁ s₂ : StreamState)
    (cid res n args : String)
    (h1 : ∀ q ∈ s₁.assistantParts, ∀ nm ar, q ≠ MsgPart.toolCall cid nm ar)
    (h2 : s₂.assistantParts.find? (isCallFor cid)
        = some (MsgPart.toolCall cid n args)) :
    (processChunk s₁ (SChunk.toolResult cid res)).1.assistantParts
        = s₁.assistantParts ++ [MsgPart.toolResult cid "" res] ∧
      (processChunk s₂ (SChunk.toolResult cid res)).1.assistantParts
        = s₂.assistantParts ++ [MsgPart.toolResult cid n res] := by
  constructor
  · have hnone : s₁.assistantParts.find? (isCallFor cid) = none := by
      rw [List.find?_eq_none]
      intro x hx
      cases x with
      | toolCall c nm ar =>
        simp only [isCallFor, beq_iff_eq]
        intro hc
        exact h1 _ hx nm ar (by rw [hc])
      | _ => simp [isCallFor]
    have hname : findCallName s₁.assistantParts cid = "" := by
      simp [findCallName, hnone]
    cases hmid : s₁.assistantMessageId <;>
      simp [processChunk, stepToolResult, hmid, hname]
  · have hname : findCallName s₂.assistantParts cid = n := by
      simp [findCallName, h2]
    cases hmid : s₂.assistantMessageId <;>
      simp [processChunk, stepToolResult, hmid, hname]

/-- Reflexivity of list initial segments. -/
theorem ListPref_refl {α : Type} (xs : List α) : ListPref xs xs :=
  ⟨[], by simp⟩

/-- A list is an initial segment of itself extended. -/
theorem ListPref_append {α : Type} (xs tl : List α) : ListPref xs (xs ++ tl) :=
  ⟨tl, rfl⟩

/-- Transitivity of list initial segments. -/
theorem ListPref_trans {α : Type} {a b c : List α} (h1 : ListPref a b)
    (h2 : ListPref b c) : ListPref a c := by
  obtain ⟨t1, rfl⟩ := h1
  obtain ⟨t2, rfl⟩ := h2
  exact ⟨t1 ++ t2, by simp⟩

/-- If every effect of a trace either carries no parts snapshot or carries
exactly the snapshot `a`, then every persisted snapshot of the trace is
`a`. -/
theorem snapshots_pair {effs : List Effect} {a : List MsgPart}
    (h : ∀ e ∈ effs, snapshotOf e = none ∨ snapshotOf e = some a) :
    ∀ ps ∈ persistedSnapshots effs, ps = a := by
  intro ps hps
  simp only [persistedSnapshots] at hps
  obtain ⟨e, he, hsnap⟩ := List.mem_filterMap.mp hps
  rcases h e he with h0 | h0
  · rw [h0] at hsnap; cases hsnap
  · rw [h0] at hsnap
    injection hsnap with h1
    rw [h1]

/-- One loop iteration only appends to the parts list, and every parts
snapshot persisted by the iteration equals the resulting parts list (row
creation, batched updates and the error write all snapshot the parts as they
stand after the iteration's append). -/
theorem processChunk_parts (s : StreamState) (c : SChunk) :
    ListPref s.assistantParts (processChunk s c).1.assistantParts ∧
      ∀ ps ∈ persistedSnapshots (processChunk s c).2,
        ps = (processChunk s c).1.assistantParts := by
  cases c with
  | content str =>
    by_cases hstr : str = ""
    · simp only [processChunk, stepContent, if_pos hstr]
      exact ⟨ListPref_refl _, snapshots_pair (by intro e he; fin_cases he)⟩
    · rcases hseq : s.assistantSequence with _ | sq <;>
        rcases hmid : s.assistantMessageId with _ | mid <;>
      simp only [processChunk, stepContent, if_neg hstr, hseq, hmid] <;>
      first
        | exact ⟨ListPref_refl _,
            snapshots_pair (by intro e he; fin_cases he <;> simp [snapshotOf])⟩
        | exact ⟨ListPref_append _ _,
            snapshots_pair (by intro e he; fin_cases he <;> simp [snapshotOf])⟩
  | reasoning str =>
    by_cases hstr : str = ""
    · simp only [processChunk, stepReasoning, if_pos hstr]
      exact ⟨ListPref_refl _, snapshots_pair (by intro e he; fin_cases he)⟩
    · rcases hseq : s.assistantSequence with _ | sq <;>
      simp only [processChunk, stepReasoning, if_neg hstr, hseq] <;>
      first
        | exact ⟨ListPref_refl _,
            snapshots_pair (by intro e he; fin_cases he <;> simp [snapshotOf])⟩
        | exact ⟨ListPref_append _ _,
            snapshots_pair (by intro e he; fin_cases he <;> simp [snapshotOf])⟩
  | reasoningSignature sig =>
    by_cases hsig : sig = ""
    · simp only [processChunk, stepSignature, if_pos hsig]
      exact ⟨ListPref_refl _, snapshots_pair (by intro e he; fin_cases he)⟩
    · rcases hget : getR s.activeReasoning s.reasoningCounter with _ | cur
      · simp only [processChunk, stepSignature, if_neg hsig, hget]
        exact ⟨ListPref_refl _, snapshots_pair (by intro e he; fin_cases he)⟩
      · rcases hmid : s.assistantMessageId with _ | mid <;>
        simp only [processChunk, stepSignature, if_neg hsig, hget, hmid] <;>
        first
          | exact ⟨ListPref_append _ _,
              snapshots_pair (by intro e he; fin_cases he <;> simp [snapshotOf])⟩
  | redacted d =>
    by_cases hd : d = ""
    · simp only [processChunk, stepRedacted, if_pos hd]
      exact ⟨ListPref_refl _, snapshots_pair (by intro e he; fin_cases he)⟩
    · rcases hseq : s.assistantSequence with _ | sq <;>
        rcases hmid : s.assistantMessageId with _ | mid <;>
      simp only [processChunk, stepRedacted, if_neg hd, hseq, hmid] <;>
      first
        | exact ⟨ListPref_refl _,
            snapshots_pair (by intro e he; fin_cases he <;> simp [snapshotOf])⟩
        | exact ⟨ListPref_append _ _,
            snapshots_pair (by intro e he; fin_cases he <;> simp [snapshotOf])⟩
  | toolCall cid name args =>
    rcases hmid : s.assistantMessageId with _ | mid <;>
    simp only [processChunk, stepToolCall, hmid] <;>
    exact ⟨ListPref_append _ _,
      snapshots_pair (by intro e he; fin_cases he <;> simp [snapshotOf])⟩
  | toolResult cid res =>
    rcases hmid : s.assistantMessageId with _ | mid <;>
    simp only [processChunk, stepToolResult, hmid] <;>
    exact ⟨ListPref_append _ _,
      snapshots_pair (by intro e he; fin_cases he <;> simp [snapshotOf])⟩
  | errorChunk m fr =>
    rcases hmid : s.assistantMessageId with _ | mid <;>
    simp only [processChunk, stepError, hmid] <;>
    exact ⟨ListPref_append _ _,
      snapshots_pair (by intro e he; fin_cases he <;> simp [snapshotOf])⟩
  | usage u =>
    exact ⟨ListPref_refl _, snapshots_pair (by intro e he; fin_cases he)⟩

/-- Over the whole loop, the parts list only grows and every persisted
snapshot is an initial segment of the loop's final parts list. -/
theorem runLoop_parts (stop : Bool) (es : List SChunk) :
    ∀ s : StreamState,
      ListPref s.assistantParts (runLoop stop s es).1.assistantParts ∧
        ∀ ps ∈ persistedSnapshots (runLoop stop s es).2,
          ListPref ps (runLoop stop s es).1.assistantParts := by
  induction es with
  | nil =>
    intro s
    simp only [runLoop]
    exact ⟨ListPref_refl _, by intro ps hps; simp [persistedSnapshots] at hps⟩
  | cons c cs ih =>
    intro s
    by_cases hstop : stop
    · simp only [runLoop, hstop, if_pos rfl]
      exact ⟨ListPref_refl _, by intro ps hps; simp [persistedSnapshots] at hps⟩
    · obtain ⟨hc1, hc2⟩ := processChunk_parts s c
      by_cases herr : (processChunk s c).1.hasError
      · simp only [runLoop, hstop, if_neg, herr, if_pos, reduceIte]
        exact ⟨hc1, fun ps hps => hc2 ps hps ▸ ListPref_refl _⟩
      · obtain ⟨hl1, hl2⟩ := ih (processChunk s c).1
        have hstop' : stop = false := by simpa using hstop
        subst hstop'
        have herr' : (processChunk s c).1.hasError = false := by simpa using herr
        simp only [runLoop, herr', Bool.false_eq_true, if_false]
        refine ⟨ListPref_trans hc1 hl1, ?_⟩
        intro ps hps
        simp only [persistedSnapshots, List.filterMap_append] at hps
        rcases List.mem_append.mp hps with h | h
        · rw [hc2 ps h]; exact hl1
        · exact hl2 ps h

/-- Finalisation only appends the flushed reasoning blocks to the parts list,
and its only persisted snapshot (the final write, when usage was observed) is
the finalised parts list itself. -/
theorem finalizeStream_parts (stop : Bool) (s : StreamState) :
    ListPref s.assistantParts (finalizeStream stop s).1.assistantParts ∧
      ∀ ps ∈ persistedSnapshots (finalizeStream stop s).2,
        ps = (finalizeStream stop s).1.assistantParts := by
  constructor
  · simp only [finalizeStream]
    exact ListPref_append _ _
  · intro ps hps
    simp only [finalizeStream] at hps ⊢
    simp only [persistedSnapshots, List.filterMap_append] at hps
    rcases List.mem_append.mp hps with h | h
    · rcases List.mem_append.mp h with h2 | h2
      · rcases hmid : s.assistantMessageId with _ | mid
        · rw [hmid] at h2
          simp at h2
        · rw [hmid] at h2
          rcases husage : s.usageMetadata with _ | u <;>
            rw [husage] at h2 <;>
            obtain ⟨e, he, hsnap⟩ := List.mem_filterMap.mp h2
          · fin_cases he <;> simp [snapshotOf] at hsnap
          · fin_cases he <;> simp only [snapshotOf] at hsnap
            · cases hsnap
            · injection hsnap with h3
              rw [h3]
      · split at h2
        · simp [persistedSnapshots, snapshotOf] at h2
        · split at h2 <;> simp [persistedSnapshots, snapshotOf] at h2
    · simp [persistedSnapshots, snapshotOf] at h

/-- Queued-action processing at the end of a turn neither changes the parts
list nor persists any snapshot. -/
theorem processQueuedAtEnd_parts (s : StreamState) :
    (processQueuedAtEnd s).1.assistantParts = s.assistantParts ∧
      persistedSnapshots (processQueuedAtEnd s).2 = [] := by
  rcases h : s.queuedAction with _ | a <;>
    simp [processQueuedAtEnd, h, persistedSnapshots, snapshotOf]

/-- C2: parts are only ever appended during a turn, so every persisted parts
snapshot — the row-creation snapshot, every scheduled batched update, and
every immediate write — is an initial segment of the turn's final parts
sequence: no reordering and no gaps. -/
theorem c2_snapshots_are_prefixes (stop : Bool) (q0 : Option QueuedAction)
    (es : List SChunk) (ps : List MsgPart)
    (h : ps ∈ persistedSnapshots (runStream stop q0 es).effects) :
    ListPref ps (runStream stop q0 es).state.assistantParts := by
  obtain ⟨hl1, hl2⟩ := runLoop_parts stop es (initState q0)
  obtain ⟨hf1, hf2⟩ := finalizeStream_parts stop (runLoop stop (initState q0) es).1
  obtain ⟨hq1, hq2⟩ :=
    processQueuedAtEnd_parts (finalizeStream stop (runLoop stop (initState q0) es).1).1
  simp only [runStream] at h ⊢
  rw [hq1]
  simp only [persistedSnapshots, List.filterMap_append] at h
  rcases List.mem_append.mp h with h' | h'
  · rcases List.mem_append.mp h' with h2 | h2
    · exact ListPref_trans (hl2 ps h2) hf1
    · rw [hf2 ps h2]
      exact ListPref_refl _
  · rw [persistedSnapshots] at hq2
    rw [hq2] at h'
    cases h'

/-- C2 witness: for the stream `[content "a", content "b"]` the snapshot
`[text "a"]` persisted at the row creation is an initial segment of the final
parts sequence. -/
theorem c2_witness :
    [MsgPart.text "a"] ∈ persistedSnapshots
        (runStream false none [SChunk.content "a", SChunk.content "b"]).effects ∧
      ListPref [MsgPart.text "a"]
        (runStream false none
          [SChunk.content "a", SChunk.content "b"]).state.assistantParts :=
  ⟨by decide, c2_snapshots_are_prefixes false none
    [SChunk.content "a", SChunk.content "b"] [MsgPart.text "a"] (by decide)⟩

/-- Appending the empty string is the identity. -/
theorem string_append_empty (s : String) : s ++ "" = s := by
  cases s with
  | mk d => exact congrArg String.mk (List.append_nil d)

/-- Lookup of the current counter in the canonical active-reasoning map. -/
theorem getR_mkActive (k : Nat) (r : String) :
    getR (mkActive k r) k = if r = "" then none else some (r, none) := by
  by_cases h : r = "" <;> simp [mkActive, getR, h, List.find?]

/-- Updating the canonical active-reasoning map with an extended text keeps
the canonical shape, provided the added text is nonempty. -/
theorem setR_mkActive (k : Nat) (r str : String) (hstr : str ≠ "") :
    setR (mkActive k r) k (r ++ str, none) = mkActive k (r ++ str) := by
  by_cases h : r = ""
  · subst h
    simp only [mkActive, if_pos rfl, setR]
    rw [if_neg (by exact fun hc => hstr (by simpa using hc))]
  · have hne : r ++ str ≠ "" := append_ne_empty_left r str h
    simp only [mkActive, if_neg h, if_neg hne, setR, beq_self_eq_true, if_true]

/-- A chunk that is not an error, not a signature and not a reasoning chunk
leaves the active-reasoning map, the reasoning counter, the reasoning parts
of the parts list, and the error flag untouched. -/
theorem processChunk_other_inv (s : StreamState) (c : SChunk)
    (hc1 : c.isErrorChunk = false) (hc2 : c.isSigChunk = false)
    (hc3 : ∀ t, c ≠ SChunk.reasoning t) :
    (processChunk s c).1.activeReasoning = s.activeReasoning ∧
      (processChunk s c).1.reasoningCounter = s.reasoningCounter ∧
      (processChunk s c).1.assistantParts.filter MsgPart.isReasoningPart
        = s.assistantParts.filter MsgPart.isReasoningPart ∧
      (processChunk s c).1.hasError = s.hasError := by
  have happ : ∀ p : MsgPart, p.isReasoningPart = false →
      ∀ xs : List MsgPart, (xs ++ [p]).filter MsgPart.isReasoningPart
        = xs.filter MsgPart.isReasoningPart := by
    intro p hp xs
    simp [List.filter_append, hp]
  cases c with
  | content str =>
    by_cases hstr : str = ""
    · simp [processChunk, stepContent, hstr]
    · rcases hseq : s.assistantSequence with _ | sq <;>
        rcases hmid : s.assistantMessageId with _ | mid <;>
        simp only [processChunk, stepContent, if_neg hstr, hseq, hmid] <;>
        exact ⟨trivial, trivial, happ (MsgPart.text str) rfl s.assistantParts, trivial⟩
  | reasoning str => exact absurd rfl (hc3 str)
  | reasoningSignature sig => simp [SChunk.isSigChunk] at hc2
  | redacted d =>
    by_cases hd : d = ""
    · simp [processChunk, stepRedacted, hd]
    · rcases hseq : s.assistantSequence with _ | sq <;>
        rcases hmid : s.assistantMessageId with _ | mid <;>
        simp only [processChunk, stepRedacted, if_neg hd, hseq, hmid] <;>
        exact ⟨trivial, trivial, happ (MsgPart.redacted d) rfl s.assistantParts, trivial⟩
  | toolCall cid name args =>
    rcases hmid : s.assistantMessageId with _ | mid <;>
      simp only [processChunk, stepToolCall, hmid] <;>
      exact ⟨trivial, trivial,
        happ (MsgPart.toolCall cid name args) rfl s.assistantParts, trivial⟩
  | toolResult cid res =>
    rcases hmid : s.assistantMessageId with _ | mid <;>
      simp only [processChunk, stepToolResult, hmid] <;>
      exact ⟨trivial, trivial,
        happ (MsgPart.toolResult cid (findCallName s.assistantParts cid) res)
          rfl s.assistantParts, trivial⟩
  | errorChunk m fr => simp [SChunk.isErrorChunk] at hc1
  | usage u => simp [processChunk, stepUsage]

/-- A reasoning chunk with nonempty text extends the pending block of the
canonical active-reasoning map by its text and changes neither the counter,
nor the parts list, nor the error flag. -/
theorem processChunk_reasoning_chunk (s : StreamState) (str r : String)
    (hstr : str ≠ "")
    (hact : s.activeReasoning = mkActive s.reasoningCounter r) :
    (processChunk s (SChunk.reasoning str)).1.activeReasoning
        = mkActive s.reasoningCounter (r ++ str) ∧
      (processChunk s (SChunk.reasoning str)).1.reasoningCounter
        = s.reasoningCounter ∧
      (processChunk s (SChunk.reasoning str)).1.assistantParts
        = s.assistantParts ∧
      (processChunk s (SChunk.reasoning str)).1.hasError = s.hasError := by
  have hg := getR_mkActive s.reasoningCounter r
  have hs := setR_mkActive s.reasoningCounter r str hstr
  rcases hseq : s.assistantSequence with _ | sq <;>
    simp only [processChunk, stepReasoning, if_neg hstr, hseq] <;>
    refine ⟨?_, trivial, trivial, trivial⟩ <;>
    · rw [hact, hg]
      by_cases h : r = ""
      · subst h
        simp only [if_pos rfl, Option.getD_none]
        rw [← hs]
        simp [mkActive]
      · simp only [if_neg h, Option.getD_some]
        exact hs

/-- Unfolding equation: a reasoning chunk contributes its text. -/
theorem reasoningConcat_cons_reasoning (t : String) (cs : List SChunk) :
    reasoningConcat (SChunk.reasoning t :: cs) = t ++ reasoningConcat cs := rfl

/-- Unfolding equation: a non-reasoning chunk contributes nothing. -/
theorem reasoningConcat_cons_other (c : SChunk) (cs : List SChunk)
    (h : ∀ t, c ≠ SChunk.reasoning t) :
    reasoningConcat (c :: cs) = reasoningConcat cs := by
  cases c <;> first | rfl | exact absurd rfl (h _)

/-- Prepending the empty string is the identity. -/
theorem string_empty_append (s : String) : "" ++ s = s := rfl

/-- Loop invariant for a stream without error and signature chunks: the
active-reasoning map stays in canonical shape, accumulating the concatenated
reasoning text; no reasoning part reaches the parts list; the error flag
stays unset. -/
theorem runLoop_reasoning_inv (es : List SChunk)
    (hes : ∀ c ∈ es, c.isErrorChunk = false ∧ c.isSigChunk = false) :
    ∀ (s : StreamState) (r : String),
      s.activeReasoning = mkActive s.reasoningCounter r →
      s.hasError = false →
      (runLoop false s es).1.activeReasoning
          = mkActive (runLoop false s es).1.reasoningCounter
              (r ++ reasoningConcat es) ∧
        (runLoop false s es).1.assistantParts.filter MsgPart.isReasoningPart
          = s.assistantParts.filter MsgPart.isReasoningPart ∧
        (runLoop false s es).1.hasError = false := by
  induction es with
  | nil =>
    intro s r hact herr
    simp only [runLoop, reasoningConcat, string_append_empty]
    exact ⟨hact, trivial, herr⟩
  | cons c cs ih =>
    intro s r hact herr
    obtain ⟨hce, hcs⟩ := hes c (List.mem_cons_self c cs)
    have hes' : ∀ x ∈ cs, x.isErrorChunk = false ∧ x.isSigChunk = false :=
      fun x hx => hes x (List.mem_cons_of_mem c hx)
    by_cases hr : ∃ t, c = SChunk.reasoning t
    · obtain ⟨t, rfl⟩ := hr
      by_cases ht : t = ""
      · subst ht
        have hstep : processChunk s (SChunk.reasoning "") = (s, []) := by
          simp [processChunk, stepReasoning]
        simp only [runLoop, hstep, herr, Bool.false_eq_true, if_false]
        obtain ⟨k1, k2, k3⟩ := ih hes' s r hact herr
        rw [reasoningConcat_cons_reasoning, string_empty_append]
        exact ⟨k1, k2, k3⟩
      · obtain ⟨h1, h2, h3, h4⟩ := processChunk_reasoning_chunk s t r ht hact
        rw [herr] at h4
        have hact' : (processChunk s (SChunk.reasoning t)).1.activeReasoning
            = mkActive (processChunk s (SChunk.reasoning t)).1.reasoningCounter
                (r ++ t) := by rw [h1, h2]
        obtain ⟨k1, k2, k3⟩ :=
          ih hes' (processChunk s (SChunk.reasoning t)).1 (r ++ t) hact' h4
        simp only [runLoop, h4, Bool.false_eq_true, if_false]
        rw [reasoningConcat_cons_reasoning, ← String.append_assoc]
        exact ⟨k1, by rw [k2, h3], k3⟩
    · have hc3 : ∀ t, c ≠ SChunk.reasoning t := by
        intro t hc
        exact hr ⟨t, hc⟩
      obtain ⟨h1, h2, h3, h4⟩ := processChunk_other_inv s c hce hcs hc3
      rw [herr] at h4
      have hact' : (processChunk s c).1.activeReasoning
          = mkActive (processChunk s c).1.reasoningCounter r := by
        rw [h1, h2, hact]
      obtain ⟨k1, k2, k3⟩ := ih hes' (processChunk s c).1 r hact' h4
      simp only [runLoop, h4, Bool.false_eq_true, if_false]
      rw [reasoningConcat_cons_other c cs hc3]
      exact ⟨k1, by rw [k2, h3], k3⟩

/-- C6: for a stream with no error and no reasoning-signature chunks whose
reasoning events carry some text, the pending reasoning block is still
finalized when the stream ends: the final parts sequence contains exactly one
reasoning part, unsigned, holding the concatenated reasoning text. -/
theorem c6_unsigned_reasoning_finalized (es : List SChunk)
    (q0 : Option QueuedAction)
    (h1 : ∀ c ∈ es, c.isErrorChunk = false ∧ c.isSigChunk = false)
    (h2 : reasoningConcat es ≠ "") :
    (runStream false q0 es).state.assistantParts.filter MsgPart.isReasoningPart
      = [MsgPart.reasoning (reasoningConcat es) none] := by
  have hinit : (initState q0).activeReasoning
      = mkActive (initState q0).reasoningCounter "" := by
    simp [initState, mkActive]
  obtain ⟨k1, k2, k3⟩ := runLoop_reasoning_inv es h1 (initState q0) "" hinit rfl
  rw [string_empty_append] at k1
  have hk2 : (runLoop false (initState q0) es).1.assistantParts.filter
      MsgPart.isReasoningPart = [] := by
    rw [k2]
    rfl
  simp only [runStream]
  obtain ⟨hq1, _⟩ :=
    processQueuedAtEnd_parts
      (finalizeStream false (runLoop false (initState q0) es).1).1
  rw [hq1]
  have hfin : (finalizeStream false (runLoop false (initState q0) es).1).1.assistantParts
      = (runLoop false (initState q0) es).1.assistantParts ++
          (runLoop false (initState q0) es).1.activeReasoning.map
            (fun e => MsgPart.reasoning e.2.1 e.2.2) := by
    simp [finalizeStream]
  rw [hfin, List.filter_append, hk2, k1]
  simp only [mkActive, if_neg h2]
  simp [MsgPart.isReasoningPart]

/-- C6 witness: two reasoning chunks followed by a usage chunk and
end-of-stream produce exactly one unsigned reasoning part holding the
concatenated text. -/
theorem c6_witness :
    ((∀ c ∈ ([SChunk.reasoning "th", SChunk.reasoning "ink",
          SChunk.usage ⟨1, 2, 3⟩] : List SChunk),
        c.isErrorChunk = false ∧ c.isSigChunk = false) ∧
      reasoningConcat [SChunk.reasoning "th", SChunk.reasoning "ink",
          SChunk.usage ⟨1, 2, 3⟩] ≠ "") ∧
    (runStream false none [SChunk.reasoning "th", SChunk.reasoning "ink",
        SChunk.usage ⟨1, 2, 3⟩]).state.assistantParts.filter
        MsgPart.isReasoningPart
      = [MsgPart.reasoning (reasoningConcat [SChunk.reasoning "th",
          SChunk.reasoning "ink", SChunk.usage ⟨1, 2, 3⟩]) none] :=
  ⟨⟨by decide, by decide⟩,
    c6_unsigned_reasoning_finalized
      [SChunk.reasoning "th", SChunk.reasoning "ink", SChunk.usage ⟨1, 2, 3⟩]
      none (by decide) (by decide)⟩

/-- Immediate-write counting distributes over trace concatenation. -/
theorem immWriteCount_append (a b : List Effect) :
    immWriteCount (a ++ b) = immWriteCount a + immWriteCount b := by
  simp [immWriteCount, List.filterMap_append]

/-- Dispatch extraction distributes over trace concatenation. -/
theorem dispatchedActions_append (a b : List Effect) :
    dispatchedActions (a ++ b)
      = dispatchedActions a ++ dispatchedActions b := by
  simp [dispatchedActions, List.filterMap_append]

/-- A chunk that is neither an error nor a usage chunk preserves the error
flag, the usage snapshot and the queued action, keeps the sequence and
message-id trackers in sync, sets the message id exactly when the chunk
creates the row, and performs no immediate write. -/
theorem processChunk_basic_inv (s : StreamState) (c : SChunk)
    (hc1 : c.isErrorChunk = false) (hc2 : c.isUsageChunk = false)
    (hsync : s.assistantSequence.isSome = s.assistantMessageId.isSome) :
    (processChunk s c).1.hasError = s.hasError ∧
      (processChunk s c).1.usageMetadata = s.usageMetadata ∧
      (processChunk s c).1.queuedAction = s.queuedAction ∧
      (processChunk s c).1.assistantMessageId.isSome
        = (s.assistantMessageId.isSome || c.createsMsg) ∧
      (processChunk s c).1.assistantSequence.isSome
        = (processChunk s c).1.assistantMessageId.isSome ∧
      immWriteCount (processChunk s c).2 = 0 := by
  cases c with
  | content str =>
    by_cases hstr : str = ""
    · simp [processChunk, stepContent, hstr, SChunk.createsMsg, immWriteCount,
        hsync]
    · rcases hseq : s.assistantSequence with _ | sq <;>
        rcases hmid : s.assistantMessageId with _ | mid
      · simp [processChunk, stepContent, hstr, hseq, hmid, SChunk.createsMsg,
          immWriteCount]
      · rw [hseq, hmid] at hsync; simp at hsync
      · rw [hseq, hmid] at hsync; simp at hsync
      · simp [processChunk, stepContent, hstr, hseq, hmid, SChunk.createsMsg,
          immWriteCount]
  | reasoning str =>
    by_cases hstr : str = ""
    · simp [processChunk, stepReasoning, hstr, SChunk.createsMsg, immWriteCount,
        hsync]
    · rcases hseq : s.assistantSequence with _ | sq <;>
        rcases hmid : s.assistantMessageId with _ | mid
      · simp [processChunk, stepReasoning, hstr, hseq, hmid, SChunk.createsMsg,
          immWriteCount]
      · rw [hseq, hmid] at hsync; simp at hsync
      · rw [hseq, hmid] at hsync; simp at hsync
      · simp [processChunk, stepReasoning, hstr, hseq, hmid, SChunk.createsMsg,
          immWriteCount]
  | reasoningSignature sig =>
    by_cases hsig : sig = ""
    · simp [processChunk, stepSignature, hsig, SChunk.createsMsg, immWriteCount,
        hsync]
    · rcases hget : getR s.activeReasoning s.reasoningCounter with _ | cur <;>
        rcases hmid : s.assistantMessageId with _ | mid <;>
        simp [processChunk, stepSignature, hsig, hget, hmid, SChunk.createsMsg,
          immWriteCount, hsync]
  | redacted d =>
    by_cases hd : d = ""
    · simp [processChunk, stepRedacted, hd, SChunk.createsMsg, immWriteCount,
        hsync]
    · rcases hseq : s.assistantSequence with _ | sq <;>
        rcases hmid : s.assistantMessageId with _ | mid
      · simp [processChunk, stepRedacted, hd, hseq, hmid, SChunk.createsMsg,
          immWriteCount]
      · rw [hseq, hmid] at hsync; simp at hsync
      · rw [hseq, hmid] at hsync; simp at hsync
      · simp [processChunk, stepRedacted, hd, hseq, hmid, SChunk.createsMsg,
          immWriteCount]
  | toolCall cid name args =>
    rcases hmid : s.assistantMessageId with _ | mid <;>
      simp [processChunk, stepToolCall, hmid, SChunk.createsMsg, immWriteCount,
        hsync]
  | toolResult cid res =>
    rcases hmid : s.assistantMessageId with _ | mid <;>
      simp [processChunk, stepToolResult, hmid, SChunk.createsMsg,
        immWriteCount, hsync]
  | errorChunk m fr => simp [SChunk.isErrorChunk] at hc1
  | usage u => simp [SChunk.isUsageChunk] at hc2

/-- Loop invariant for a stream prefix without error and usage chunks:
nothing fails, no usage is recorded, the queued action survives, a message
row exists at the end exactly when some chunk created it, and no immediate
write is performed. -/
theorem runLoop_basic_inv (es : List SChunk)
    (hes : ∀ c ∈ es, c.isErrorChunk = false ∧ c.isUsageChunk = false) :
    ∀ s : StreamState,
      s.hasError = false →
      s.assistantSequence.isSome = s.assistantMessageId.isSome →
      (runLoop false s es).1.hasError = false ∧
        (runLoop false s es).1.usageMetadata = s.usageMetadata ∧
        (runLoop false s es).1.queuedAction = s.queuedAction ∧
        (runLoop false s es).1.assistantMessageId.isSome
          = (s.assistantMessageId.isSome || es.any SChunk.createsMsg) ∧
        (runLoop false s es).1.assistantSequence.isSome
          = (runLoop false s es).1.assistantMessageId.isSome ∧
        immWriteCount (runLoop false s es).2 = 0 := by
  induction es with
  | nil =>
    intro s herr hsync
    simp only [runLoop, List.any_nil, Bool.or_false]
    exact ⟨herr, trivial, trivial, trivial, hsync, rfl⟩
  | cons c cs ih =>
    intro s herr hsync
    obtain ⟨hce, hcu⟩ := hes c (List.mem_cons_self c cs)
    have hes' : ∀ x ∈ cs, x.isErrorChunk = false ∧ x.isUsageChunk = false :=
      fun x hx => hes x (List.mem_cons_of_mem c hx)
    obtain ⟨h1, h2, h3, h4, h5, h6⟩ := processChunk_basic_inv s c hce hcu hsync
    rw [herr] at h1
    obtain ⟨k1, k2, k3, k4, k5, k6⟩ := ih hes' (processChunk s c).1 h1 h5
    simp only [runLoop, h1, Bool.false_eq_true, if_false]
    refine ⟨k1, by rw [k2, h2], by rw [k3, h3], ?_, k5, ?_⟩
    · rw [k4, h4, List.any_cons]
      cases s.assistantMessageId.isSome <;> cases c.createsMsg <;>
        cases cs.any SChunk.createsMsg <;> rfl
    · rw [immWriteCount_append, h6, k6]

/-- Behaviour of the error-chunk handler when a message row exists: the turn
is marked failed, the queued action is discarded, usage and message id are
untouched, exactly one immediate write is performed, and a Failed status
update is emitted. -/
theorem stepError_spec (s : StreamState) (m : String) (fr : Option String)
    (hmid : s.assistantMessageId.isSome = true) :
    (stepError s m fr).1.hasError = true ∧
      (stepError s m fr).1.queuedAction = none ∧
      (stepError s m fr).1.usageMetadata = s.usageMetadata ∧
      (stepError s m fr).1.assistantMessageId = s.assistantMessageId ∧
      immWriteCount (stepError s m fr).2 = 1 ∧
      Effect.setTaskStatus TaskStatus.failed ∈ (stepError s m fr).2 ∧
      dispatchedActions (stepError s m fr).2 = [] := by
  obtain ⟨k, hk⟩ := Option.isSome_iff_exists.mp hmid
  simp [stepError, hk, immWriteCount, dispatchedActions]

/-- Processing a stream headed by an error chunk handles exactly that chunk
and stops. -/
theorem runLoop_error_head (s : StreamState) (m : String) (fr : Option String)
    (rest : List SChunk) :
    runLoop false s (SChunk.errorChunk m fr :: rest) = stepError s m fr := by
  have herr : (stepError s m fr).1.hasError = true := by
    rcases hmid : s.assistantMessageId with _ | mid <;> simp [stepError, hmid]
  simp only [runLoop, processChunk, Bool.false_eq_true, if_false, herr, if_true]

/-- The loop distributes over concatenation as long as the first half does
not set the error flag. -/
theorem runLoop_append (pre es' : List SChunk) :
    ∀ s : StreamState, (runLoop false s pre).1.hasError = false →
      runLoop false s (pre ++ es')
        = ((runLoop false (runLoop false s pre).1 es').1,
           (runLoop false s pre).2
             ++ (runLoop false (runLoop false s pre).1 es').2) := by
  induction pre with
  | nil => intro s h; simp [runLoop]
  | cons c cs ih =>
    intro s h
    by_cases hc : (processChunk s c).1.hasError
    · exfalso
      have hx : (runLoop false s (c :: cs)).1.hasError = true := by
        simp only [runLoop, Bool.false_eq_true, if_false, hc, if_true]
      rw [h] at hx
      cases hx
    · have hc' : (processChunk s c).1.hasError = false := by simpa using hc
      have h' : (runLoop false (processChunk s c).1 cs).1.hasError = false := by
        have hx : runLoop false s (c :: cs)
            = ((runLoop false (processChunk s c).1 cs).1,
               (processChunk s c).2
                 ++ (runLoop false (processChunk s c).1 cs).2) := by
          simp only [runLoop, Bool.false_eq_true, if_false, hc', if_false]
        rw [hx] at h
        exact h
      have hrw : runLoop false s (c :: cs)
          = ((runLoop false (processChunk s c).1 cs).1,
             (processChunk s c).2
               ++ (runLoop false (processChunk s c).1 cs).2) := by
        simp only [runLoop, Bool.false_eq_true, if_false, hc', if_false]
      rw [hrw, List.cons_append]
      simp only [runLoop, Bool.false_eq_true, if_false, hc', List.append_eq]
      rw [ih (processChunk s c).1 h']
      simp [List.append_assoc]

/-- Without observed usage, finalisation performs no immediate write and
dispatches nothing. -/
theorem finalizeStream_counts_no_usage (stop : Bool) (s : StreamState)
    (h : s.usageMetadata = none) :
    immWriteCount (finalizeStream stop s).2 = 0 ∧
      dispatchedActions (finalizeStream stop s).2 = [] := by
  rcases hm : s.assistantMessageId with _ | mid <;>
    by_cases he : s.hasError <;>
    cases stop <;>
    simp [finalizeStream, h, hm, he, immWriteCount, dispatchedActions]

/-- Finalisation does not touch the queued action. -/
theorem finalizeStream_queued (stop : Bool) (s : StreamState) :
    (finalizeStream stop s).1.queuedAction = s.queuedAction := by
  simp [finalizeStream]

/-- With no queued action, end-of-turn queue processing is a no-op. -/
theorem processQueuedAtEnd_none (s : StreamState) (h : s.queuedAction = none) :
    processQueuedAtEnd s = (s, []) := by
  simp [processQueuedAtEnd, h]

/-- No single loop iteration dispatches a queued action. -/
theorem processChunk_no_dispatch (s : StreamState) (c : SChunk) :
    dispatchedActions (processChunk s c).2 = [] := by
  cases c with
  | content str =>
    by_cases hstr : str = ""
    · simp [processChunk, stepContent, hstr, dispatchedActions]
    · rcases hseq : s.assistantSequence with _ | sq <;>
        rcases hmid : s.assistantMessageId with _ | mid <;>
        simp [processChunk, stepContent, hstr, hseq, hmid, dispatchedActions]
  | reasoning str =>
    by_cases hstr : str = ""
    · simp [processChunk, stepReasoning, hstr, dispatchedActions]
    · rcases hseq : s.assistantSequence with _ | sq <;>
        simp [processChunk, stepReasoning, hstr, hseq, dispatchedActions]
  | reasoningSignature sig =>
    by_cases hsig : sig = ""
    · simp [processChunk, stepSignature, hsig, dispatchedActions]
    · rcases hget : getR s.activeReasoning s.reasoningCounter with _ | cur <;>
        rcases hmid : s.assistantMessageId with _ | mid <;>
        simp [processChunk, stepSignature, hsig, hget, hmid, dispatchedActions]
  | redacted d =>
    by_cases hd : d = ""
    · simp [processChunk, stepRedacted, hd, dispatchedActions]
    · rcases hseq : s.assistantSequence with _ | sq <;>
        rcases hmid : s.assistantMessageId with _ | mid <;>
        simp [processChunk, stepRedacted, hd, hseq, hmid, dispatchedActions]
  | toolCall cid name args =>
    rcases hmid : s.assistantMessageId with _ | mid <;>
      simp [processChunk, stepToolCall, hmid, dispatchedActions]
  | toolResult cid res =>
    rcases hmid : s.assistantMessageId with _ | mid <;>
      simp [processChunk, stepToolResult, hmid, dispatchedActions]
  | errorChunk m fr =>
    rcases hmid : s.assistantMessageId with _ | mid <;>
      simp [processChunk, stepError, hmid, dispatchedActions]
  | usage u => simp [processChunk, stepUsage, dispatchedActions]

/-- The loop never dispatches a queued action. -/
theorem runLoop_no_dispatch (es : List SChunk) :
    ∀ s : StreamState, dispatchedActions (runLoop false s es).2 = [] := by
  induction es with
  | nil => intro s; simp [runLoop, dispatchedActions]
  | cons c cs ih =>
    intro s
    by_cases hc : (processChunk s c).1.hasError
    · simp only [runLoop, Bool.false_eq_true, if_false, hc, if_true]
      exact processChunk_no_dispatch s c
    · have hc' : (processChunk s c).1.hasError = false := by simpa using hc
      simp only [runLoop, Bool.false_eq_true, if_false, hc']
      rw [dispatchedActions_append, processChunk_no_dispatch, ih]
      rfl

/-- C3 counterexample: in the stream `[content "a", usage u, error]` — usage
observed before the error — the reducer performs two immediate writes (the
error-path write and, because usage was observed, a second final write during
end-of-stream finalisation), so the claimed "exactly one immediate final
write" is violated, even though an assistant row exists. -/
theorem c3_counterexample :
    immWriteCount (runStream false (some (QueuedAction.message "queued" none))
        [SChunk.content "a", SChunk.usage ⟨1, 1, 2⟩,
         SChunk.errorChunk "boom" none]).effects = 2 := by
  decide

/-- C3 (amended): for any stream whose chunks before the first error chunk
contain no usage chunk and do create the assistant row, the error event
yields exactly one immediate (non-batched) final write, a Failed task-status
update, and zero queued actions processed afterwards — even when an action
was queued. (With usage observed before the error a second final write
follows; with no row created there is no immediate write.) -/
theorem c3_error_terminal_behavior (pre rest : List SChunk) (m : String)
    (fr : Option String) (q0 : Option QueuedAction)
    (h1 : ∀ c ∈ pre, c.isErrorChunk = false ∧ c.isUsageChunk = false)
    (h2 : pre.any SChunk.createsMsg = true) :
    immWriteCount
        (runStream false q0 (pre ++ SChunk.errorChunk m fr :: rest)).effects
      = 1 ∧
    Effect.setTaskStatus TaskStatus.failed
      ∈ (runStream false q0 (pre ++ SChunk.errorChunk m fr :: rest)).effects ∧
    dispatchedActions
        (runStream false q0 (pre ++ SChunk.errorChunk m fr :: rest)).effects
      = [] := by
  obtain ⟨k1, k2, k3, k4, k5, k6⟩ :=
    runLoop_basic_inv pre h1 (initState q0) rfl rfl
  have happ :=
    runLoop_append pre (SChunk.errorChunk m fr :: rest) (initState q0) k1
  have hhead :=
    runLoop_error_head (runLoop false (initState q0) pre).1 m fr rest
  have hmid :
      (runLoop false (initState q0) pre).1.assistantMessageId.isSome = true := by
    rw [k4, h2]
    simp [initState]
  obtain ⟨e1, e2, e3, e4, e5, e6, e7⟩ :=
    stepError_spec (runLoop false (initState q0) pre).1 m fr hmid
  have husage :
      (stepError (runLoop false (initState q0) pre).1 m fr).1.usageMetadata
        = none := by
    rw [e3, k2]
    rfl
  obtain ⟨f1, f2⟩ :=
    finalizeStream_counts_no_usage false
      (stepError (runLoop false (initState q0) pre).1 m fr).1 husage
  have hq :
      (finalizeStream false
          (stepError (runLoop false (initState q0) pre).1 m fr).1).1.queuedAction
        = none := by
    rw [finalizeStream_queued]
    exact e2
  have hpe :=
    processQueuedAtEnd_none
      (finalizeStream false
        (stepError (runLoop false (initState q0) pre).1 m fr).1).1 hq
  have hpre := runLoop_no_dispatch pre (initState q0)
  simp only [runStream, happ, hhead, hpe]
  refine ⟨?_, ?_, ?_⟩
  · rw [immWriteCount_append, immWriteCount_append, immWriteCount_append,
      k6, e5, f1]
    simp [immWriteCount]
  · simp only [List.mem_append]
    tauto
  · rw [dispatchedActions_append, dispatchedActions_append,
      dispatchedActions_append, hpre, e7, f2]
    simp [dispatchedActions]

/-- C3 witness: one content chunk, then an error, with a message action
queued — exactly one immediate write, a Failed status, no queued dispatch. -/
theorem c3_witness :
    ((∀ c ∈ ([SChunk.content "a"] : List SChunk),
        c.isErrorChunk = false ∧ c.isUsageChunk = false) ∧
      ([SChunk.content "a"] : List SChunk).any SChunk.createsMsg = true) ∧
    immWriteCount
        (runStream false (some (QueuedAction.message "queued" none))
          ([SChunk.content "a"] ++ SChunk.errorChunk "boom" none :: [])).effects
      = 1 ∧
    Effect.setTaskStatus TaskStatus.failed
      ∈ (runStream false (some (QueuedAction.message "queued" none))
          ([SChunk.content "a"] ++ SChunk.errorChunk "boom" none :: [])).effects ∧
    dispatchedActions
        (runStream false (some (QueuedAction.message "queued" none))
          ([SChunk.content "a"] ++ SChunk.errorChunk "boom" none :: [])).effects
      = [] :=
  ⟨⟨by decide, by decide⟩,
    c3_error_terminal_behavior [SChunk.content "a"] [] "boom" none
      (some (QueuedAction.message "queued" none)) (by decide) (by decide)⟩

/-- C4 witness: task `"T"` streaming with an older queued action; an
immediate submission stops the stream and clears the queue, a queued
submission overwrites the slot and touches nothing else. -/
theorem c4_witness :
    ("T" ∈ (⟨["T"], [], [("T", QueuedAction.message "old" none)], []⟩
        : ChatSvc).activeStreams) ∧
    (((submitMessageHead
          ⟨["T"], [], [("T", QueuedAction.message "old" none)], []⟩
          "T" "new" none false).2.1 = SubmitOutcome.proceed ∧
      "T" ∉ (submitMessageHead
          ⟨["T"], [], [("T", QueuedAction.message "old" none)], []⟩
          "T" "new" none false).1.activeStreams ∧
      "T" ∈ (submitMessageHead
          ⟨["T"], [], [("T", QueuedAction.message "old" none)], []⟩
          "T" "new" none false).1.stopRequested ∧
      mapGet (submitMessageHead
          ⟨["T"], [], [("T", QueuedAction.message "old" none)], []⟩
          "T" "new" none false).1.queuedActions "T" = none ∧
      Effect.setTaskStatus TaskStatus.stopped
        ∈ (submitMessageHead
            ⟨["T"], [], [("T", QueuedAction.message "old" none)], []⟩
            "T" "new" none false).2.2) ∧
    ((submitMessageHead
          ⟨["T"], [], [("T", QueuedAction.message "old" none)], []⟩
          "T" "new" none true).2.1 = SubmitOutcome.queuedOnly ∧
      (submitMessageHead
          ⟨["T"], [], [("T", QueuedAction.message "old" none)], []⟩
          "T" "new" none true).1.activeStreams
        = (⟨["T"], [], [("T", QueuedAction.message "old" none)], []⟩
            : ChatSvc).activeStreams ∧
      (submitMessageHead
          ⟨["T"], [], [("T", QueuedAction.message "old" none)], []⟩
          "T" "new" none true).1.stopRequested
        = (⟨["T"], [], [("T", QueuedAction.message "old" none)], []⟩
            : ChatSvc).stopRequested ∧
      mapGet (submitMessageHead
          ⟨["T"], [], [("T", QueuedAction.message "old" none)], []⟩
          "T" "new" none true).1.queuedActions "T"
        = some (QueuedAction.message "new" none) ∧
      (submitMessageHead
          ⟨["T"], [], [("T", QueuedAction.message "old" none)], []⟩
          "T" "new" none true).2.2 = [])) :=
  ⟨by decide,
    c4_immediate_vs_queued
      ⟨["T"], [], [("T", QueuedAction.message "old" none)], []⟩
      "T" "new" none (by decide)⟩

/-- C7 witness: editing `"m2"` (sequence 2) of task `"T"` deletes exactly the
task's row at sequence 3 and keeps the rest. -/
theorem c7_witness :
    ((updateContent
          [⟨"m1", "T", 1, "hi"⟩, ⟨"m2", "T", 2, "yo"⟩, ⟨"m3", "T", 3, "zz"⟩,
           ⟨"o1", "U", 9, "other"⟩] "m2" "edited").find?
        (fun m => m.id == "m2") = some ⟨"m2", "T", 2, "edited"⟩) ∧
    (editUserMessage
        [⟨"m1", "T", 1, "hi"⟩, ⟨"m2", "T", 2, "yo"⟩, ⟨"m3", "T", 3, "zz"⟩,
         ⟨"o1", "U", 9, "other"⟩] "T" "m2" "edited"
      = some [⟨"m1", "T", 1, "hi"⟩, ⟨"m2", "T", 2, "edited"⟩,
              ⟨"o1", "U", 9, "other"⟩]) ∧
    ((⟨"m3", "T", 3, "zz"⟩ : MsgRow)
        ∈ ([⟨"m1", "T", 1, "hi"⟩, ⟨"m2", "T", 2, "edited"⟩,
            ⟨"o1", "U", 9, "other"⟩] : List MsgRow) ↔
      (⟨"m3", "T", 3, "zz"⟩ : MsgRow)
          ∈ updateContent
              [⟨"m1", "T", 1, "hi"⟩, ⟨"m2", "T", 2, "yo"⟩,
               ⟨"m3", "T", 3, "zz"⟩, ⟨"o1", "U", 9, "other"⟩] "m2" "edited" ∧
        ¬((⟨"m3", "T", 3, "zz"⟩ : MsgRow).taskId = "T" ∧
          (⟨"m2", "T", 2, "edited"⟩ : MsgRow).sequence
            < (⟨"m3", "T", 3, "zz"⟩ : MsgRow).sequence)) :=
  ⟨by decide, by decide,
    c7_edit_deletes_exactly_greater
      [⟨"m1", "T", 1, "hi"⟩, ⟨"m2", "T", 2, "yo"⟩, ⟨"m3", "T", 3, "zz"⟩,
       ⟨"o1", "U", 9, "other"⟩] "T" "m2" "edited" ⟨"m2", "T", 2, "edited"⟩
      [⟨"m1", "T", 1, "hi"⟩, ⟨"m2", "T", 2, "edited"⟩, ⟨"o1", "U", 9, "other"⟩]
      (by decide) (by decide) ⟨"m3", "T", 3, "zz"⟩⟩

/-- C8 witness: with no accumulated parts the result part's tool name is
empty; with a matching tool-call part it takes that call's name. -/
theorem c8_witness :
    ((∀ q ∈ (initState none).assistantParts, ∀ nm ar,
        q ≠ MsgPart.toolCall "c1" nm ar) ∧
      ({ initState none with
          assistantParts :=
            [MsgPart.toolCall "c1" "grep" "args"] }
            : StreamState).assistantParts.find? (isCallFor "c1")
        = some (MsgPart.toolCall "c1" "grep" "args")) ∧
    ((processChunk (initState none)
          (SChunk.toolResult "c1" "out")).1.assistantParts
        = (initState none).assistantParts
            ++ [MsgPart.toolResult "c1" "" "out"] ∧
      (processChunk
          ({ initState none with
              assistantParts := [MsgPart.toolCall "c1" "grep" "args"] }
            : StreamState)
          (SChunk.toolResult "c1" "out")).1.assistantParts
        = ({ initState none with
              assistantParts := [MsgPart.toolCall "c1" "grep" "args"] }
            : StreamState).assistantParts
            ++ [MsgPart.toolResult "c1" "grep" "out"]) :=
  ⟨⟨by intro q hq nm ar; simp [initState] at hq, by decide⟩,
    c8_tool_result_name_resolution (initState none)
      ({ initState none with
          assistantParts := [MsgPart.toolCall "c1" "grep" "args"] })
      "c1" "out" "grep" "args"
      (by intro q hq nm ar; simp [initState] at hq) (by decide)⟩
